import Mathlib

/-!
Shallow embedding of the web-extraction-agent repository's core:
the configuration store (`src/web_extraction_agent/config_manager.py`),
the tool lifecycle manager (`src/web_extraction_agent/tool_manager.py`)
and the lazy-initialization handler (`src/web_extraction_agent/main.py`).

Python dictionaries are modelled as association lists with unique-key
semantics: assignment keeps the position of an existing key and appends a
new one, deletion filters the key out, iteration follows list order.
Python lists of names are Lean lists; `list.remove` removes the first
occurrence.  Machine integers do not overflow in the modelled code, so
`Int` is used directly.  External collaborators (the MultiMCPTools
multiplexed connection layer, the Mem0 memory-tool integration) are
modelled as opaque records of the constructor arguments the code passes,
with the outcome of their fallible operations supplied as an explicit
`Except` parameter.
-/

namespace WebExtractionAgent

/-- `k in d` for a Python dict modelled as an association list. -/
def dictContains (k : String) (d : List (String × α)) : Bool :=
  d.any (fun p => p.1 == k)

/-- `d.get(k)` / `d[k]` lookup for a Python dict. -/
def dictGet (k : String) (d : List (String × α)) : Option α :=
  (d.find? (fun p => p.1 == k)).map (fun p => p.2)

/-- `d[k] = v` for a Python dict: replace in place if the key exists
(keeping its position), else append. -/
def dictInsert (k : String) (v : α) (d : List (String × α)) : List (String × α) :=
  if d.any (fun p => p.1 == k) then
    d.map (fun p => if p.1 == k then (k, v) else p)
  else
    d ++ [(k, v)]

/-- `del d[k]` for a Python dict. -/
def dictErase (k : String) (d : List (String × α)) : List (String × α) :=
  d.filter (fun p => !(p.1 == k))

/-- In-place mutation of the value stored under `k`
(Python `d[k].field = x`). -/
def dictModify (k : String) (f : α → α) (d : List (String × α)) : List (String × α) :=
  d.map (fun p => if p.1 == k then (k, f p.2) else p)

/-- Python `list.remove(x)`: drop the first occurrence of `x`. -/
def listRemoveFirst (x : String) : List String → List String
  | [] => []
  | y :: ys => if y = x then ys else y :: listRemoveFirst x ys

/-- `ToolConfig` from config_manager.py: name, command, enabled (default
true), environment (default empty), timeout (default 30), description
(default empty). -/
structure ToolConfig where
  name : String
  command : String
  enabled : Bool := true
  environment : List (String × String) := []
  timeout : Int := 30
  description : String := ""
deriving DecidableEq

/-- `PromptConfig` from config_manager.py: name, template, enabled
(default true), version (default "1.0"), description (default empty). -/
structure PromptConfig where
  name : String
  template : String
  enabled : Bool := true
  version : String := "1.0"
  description : String := ""
deriving DecidableEq

/-- `AgentConfigManager` from config_manager.py: the configuration store.
Field defaults are the pydantic defaults from the source. -/
structure AgentConfigManager where
  tools : List (String × ToolConfig) := []
  prompts : List (String × PromptConfig) := []
  active_tools : List String := []
  active_prompt : String := "default"
  model_id : String := "openai/gpt-5"
  debug : Bool := false
deriving DecidableEq

namespace AgentConfigManager

/-- `add_tool`: `self.tools[tool.name] = tool`; if `tool.enabled` and the
name is not already active, append it to `active_tools`. -/
def add_tool (s : AgentConfigManager) (tool : ToolConfig) : AgentConfigManager :=
  { s with
    tools := dictInsert tool.name tool s.tools
    active_tools :=
      if tool.enabled ∧ tool.name ∉ s.active_tools then
        s.active_tools ++ [tool.name]
      else s.active_tools }

/-- `remove_tool`: delete from `tools` if present; remove from
`active_tools` if present. -/
def remove_tool (s : AgentConfigManager) (tool_name : String) : AgentConfigManager :=
  { s with
    tools := if dictContains tool_name s.tools then dictErase tool_name s.tools else s.tools
    active_tools :=
      if tool_name ∈ s.active_tools then listRemoveFirst tool_name s.active_tools
      else s.active_tools }

/-- `enable_tool`: if the name is a known tool, set `enabled := true` and
append to `active_tools` when absent; otherwise a no-op. -/
def enable_tool (s : AgentConfigManager) (tool_name : String) : AgentConfigManager :=
  if dictContains tool_name s.tools then
    { s with
      tools := dictModify tool_name (fun t => { t with enabled := true }) s.tools
      active_tools :=
        if tool_name ∉ s.active_tools then s.active_tools ++ [tool_name]
        else s.active_tools }
  else s

/-- `disable_tool`: if the name is a known tool, set `enabled := false`;
independently, remove the name from `active_tools` if present. -/
def disable_tool (s : AgentConfigManager) (tool_name : String) : AgentConfigManager :=
  { s with
    tools :=
      if dictContains tool_name s.tools then
        dictModify tool_name (fun t => { t with enabled := false }) s.tools
      else s.tools
    active_tools :=
      if tool_name ∈ s.active_tools then listRemoveFirst tool_name s.active_tools
      else s.active_tools }

/-- `add_prompt`: `self.prompts[prompt.name] = prompt`. -/
def add_prompt (s : AgentConfigManager) (prompt : PromptConfig) : AgentConfigManager :=
  { s with prompts := dictInsert prompt.name prompt s.prompts }

/-- `set_active_prompt`: set `active_prompt` only when the name is a known
prompt. -/
def set_active_prompt (s : AgentConfigManager) (prompt_name : String) : AgentConfigManager :=
  if dictContains prompt_name s.prompts then { s with active_prompt := prompt_name } else s

/-- `get_active_prompt`: `self.prompts.get(self.active_prompt)`. -/
def get_active_prompt (s : AgentConfigManager) : Option PromptConfig :=
  dictGet s.active_prompt s.prompts

/-- The per-name filter of `get_active_tools`: keep `name` when it exists
in `tools` (`name in self.tools`) and its definition is enabled
(`self.tools[name].enabled`). -/
def activeLookup (s : AgentConfigManager) (name : String) : Option ToolConfig :=
  match dictGet name s.tools with
  | some t => if t.enabled then some t else none
  | none => none

/-- `get_active_tools`: the tools listed in `active_tools`, in order,
that exist in `tools` and are enabled. -/
def get_active_tools (s : AgentConfigManager) : List ToolConfig :=
  s.active_tools.filterMap s.activeLookup

end AgentConfigManager

/-- Python `max` over a nonempty list (the source only evaluates it on a
nonempty list; an arbitrary value is returned for `[]`). -/
def pyMax : List Int → Int
  | [] => 0
  | x :: xs => xs.foldl max x

/-- The constructor arguments the source passes to the external
`MultiMCPTools` multiplexed connection layer, plus whether the subsequent
`connect()` call succeeded. -/
structure MultiMCPTools where
  commands : List String
  env : List (String × String)
  allowPartialFailure : Bool
  timeout_seconds : Int
  connected : Bool
deriving DecidableEq

/-- The constructor argument the source passes to the external `Mem0Tools`
memory-tool integration. -/
structure Mem0Tools where
  api_key : String
deriving DecidableEq

/-- A handle exposed to the agent runtime: either the multiplexed MCP
connection or the memory-tool integration. -/
inductive ToolHandle where
  | mcp : MultiMCPTools → ToolHandle
  | mem0 : Mem0Tools → ToolHandle
deriving DecidableEq

/-- The log lines `ToolManager.initialize` prints. -/
inductive InitLog where
  | alreadyConnected
  | noToolsConfigured
  | connectedServers (n : Nat)
  | errorConnecting
  | mem0Initialized
deriving DecidableEq

/-- `ToolManager` from tool_manager.py: configuration reference, optional
multiplexed handle, optional memory-tool handle, connected flag. -/
structure ToolManager where
  config : AgentConfigManager
  mcp_tools : Option MultiMCPTools := none
  mem0_tools : Option Mem0Tools := none
  is_connected_flag : Bool := false
deriving DecidableEq

namespace ToolManager

/-- `ToolManager.__init__(config)`: freshly constructed, disconnected,
no handles. -/
def init (config : AgentConfigManager) : ToolManager :=
  { config := config }

/-- `ToolManager.initialize(env)`.  External effects are explicit
parameters: `connectResult` is the outcome of `await mcp_tools.connect()`
(an exception there is caught and logged), `mem0ApiKey` is
`os.getenv("MEM0_API_KEY")`.  Mirrors the source: an early return when
already connected; an early return (before the connected flag is set)
when there are no active enabled tools; the handle is assigned before
`connect()` is awaited, so it stays assigned when `connect()` raises;
the timeout passed is the max over all active enabled tools. -/
def initializeManager (tm : ToolManager) (env : List (String × String))
    (connectResult : Except String Unit) (mem0ApiKey : Option String) :
    ToolManager × List InitLog :=
  if tm.is_connected_flag then
    (tm, [InitLog.alreadyConnected])
  else
    let enabled_tools := tm.config.get_active_tools
    if enabled_tools.isEmpty then
      (tm, [InitLog.noToolsConfigured])
    else
      let commands := (enabled_tools.filter (fun t => ¬ t.command.isEmpty)).map
        (fun t => t.command)
      let (tm1, log1) :=
        if commands.isEmpty then (tm, ([] : List InitLog))
        else
          let handle : MultiMCPTools :=
            { commands := commands
              env := env
              allowPartialFailure := true
              timeout_seconds := pyMax (enabled_tools.map (fun t => t.timeout))
              connected := false }
          match connectResult with
          | Except.ok _ =>
            ({ tm with mcp_tools := some { handle with connected := true } },
             [InitLog.connectedServers commands.length])
          | Except.error _ =>
            ({ tm with mcp_tools := some handle }, [InitLog.errorConnecting])
      let (tm2, log2) :=
        match mem0ApiKey with
        | some key =>
          ({ tm1 with mem0_tools := some { api_key := key } }, [InitLog.mem0Initialized])
        | none => (tm1, [])
      ({ tm2 with is_connected_flag := true }, log1 ++ log2)

/-- `ToolManager.shutdown()`.  `closeResult` is the outcome of
`await mcp_tools.close()`; an exception there is caught and logged, so it
does not affect the resulting state.  The source clears neither handle
field; it only resets the connected flag. -/
def shutdown (tm : ToolManager) (closeResult : Except String Unit) : ToolManager :=
  let _ := closeResult
  { tm with is_connected_flag := false }

/-- `ToolManager.get_tools_list()`: the multiplexed handle first if
present, then the memory handle if present. -/
def get_tools_list (tm : ToolManager) : List ToolHandle :=
  (tm.mcp_tools.toList.map ToolHandle.mcp) ++ (tm.mem0_tools.toList.map ToolHandle.mem0)

/-- `ToolManager.is_connected()`. -/
def is_connected (tm : ToolManager) : Bool :=
  tm.is_connected_flag

end ToolManager

/-!
Serialization (config_manager.py `to_dict` / `from_dict`).  The persisted
document is modelled as a JSON-like value.  `from_dict` mirrors the
source: it converts each entry of the `tools` / `prompts` sub-documents
through the pydantic model constructors and then builds the store through
the pydantic `AgentConfigManager` constructor, where a missing field
takes its declared default and unknown fields are ignored (pydantic's
default `extra` policy).  Validation is modelled exact-typed; pydantic's
lenient coercions (e.g. numeric strings to int) only widen the accepted
inputs and are not needed by any claim.  The source's `isinstance`
branch, which passes through values that are already model instances,
cannot occur in a JSON document and is not modelled.
-/

/-- A JSON-like document value. -/
inductive JVal where
  | str : String → JVal
  | bool : Bool → JVal
  | int : Int → JVal
  | arr : List JVal → JVal
  | obj : List (String × JVal) → JVal

/-- Validate a document value as a string. -/
def JVal.asStr : JVal → Option String
  | JVal.str x => some x
  | _ => none

/-- Validate a document value as a boolean. -/
def JVal.asBool : JVal → Option Bool
  | JVal.bool x => some x
  | _ => none

/-- Validate a document value as an integer. -/
def JVal.asInt : JVal → Option Int
  | JVal.int x => some x
  | _ => none

/-- Validate a document value as an object. -/
def JVal.asObj : JVal → Option (List (String × JVal))
  | JVal.obj x => some x
  | _ => none

/-- Read an optional field: absent means the declared default, present
means the value must validate. -/
def getFieldD (d : List (String × JVal)) (k : String) (dflt : α)
    (conv : JVal → Option α) : Option α :=
  match dictGet k d with
  | none => some dflt
  | some v => conv v

/-- Read a required field (pydantic `Field(...)`). -/
def getFieldReq (d : List (String × JVal)) (k : String)
    (conv : JVal → Option α) : Option α :=
  match dictGet k d with
  | none => none
  | some v => conv v

/-- Validate every value of an object as a string
(the `environment: dict[str, str]` field). -/
def parseStrPairs : List (String × JVal) → Option (List (String × String))
  | [] => some []
  | (k, v) :: rest =>
    match v.asStr, parseStrPairs rest with
    | some x, some xs => some ((k, x) :: xs)
    | _, _ => none

/-- Validate every element of an array as a string
(the `active_tools: list[str]` field). -/
def parseStrList : List JVal → Option (List String)
  | [] => some []
  | v :: rest =>
    match v.asStr, parseStrList rest with
    | some x, some xs => some (x :: xs)
    | _, _ => none

/-- `model_dump` of a `ToolConfig`. -/
def ToolConfig.to_dict (t : ToolConfig) : JVal :=
  JVal.obj
    [("name", JVal.str t.name),
     ("command", JVal.str t.command),
     ("enabled", JVal.bool t.enabled),
     ("environment", JVal.obj (t.environment.map (fun p => (p.1, JVal.str p.2)))),
     ("timeout", JVal.int t.timeout),
     ("description", JVal.str t.description)]

/-- `ToolConfig(**v)`: required name and command, defaults for the rest,
unknown fields ignored. -/
def ToolConfig.from_dict (j : JVal) : Option ToolConfig := do
  let d ← j.asObj
  let name ← getFieldReq d "name" JVal.asStr
  let command ← getFieldReq d "command" JVal.asStr
  let enabled ← getFieldD d "enabled" true JVal.asBool
  let environment ← getFieldD d "environment" [] (fun v => do
    let o ← v.asObj
    parseStrPairs o)
  let timeout ← getFieldD d "timeout" 30 JVal.asInt
  let description ← getFieldD d "description" "" JVal.asStr
  return { name := name, command := command, enabled := enabled,
           environment := environment, timeout := timeout, description := description }

/-- `model_dump` of a `PromptConfig`. -/
def PromptConfig.to_dict (p : PromptConfig) : JVal :=
  JVal.obj
    [("name", JVal.str p.name),
     ("template", JVal.str p.template),
     ("enabled", JVal.bool p.enabled),
     ("version", JVal.str p.version),
     ("description", JVal.str p.description)]

/-- `PromptConfig(**v)`: required name and template, defaults for the
rest, unknown fields ignored. -/
def PromptConfig.from_dict (j : JVal) : Option PromptConfig := do
  let d ← j.asObj
  let name ← getFieldReq d "name" JVal.asStr
  let template ← getFieldReq d "template" JVal.asStr
  let enabled ← getFieldD d "enabled" true JVal.asBool
  let version ← getFieldD d "version" "1.0" JVal.asStr
  let description ← getFieldD d "description" "" JVal.asStr
  return { name := name, template := template, enabled := enabled,
           version := version, description := description }

/-- Convert each entry of the `tools` sub-document
(`{k: ToolConfig(**v) for k, v in ...}`). -/
def parseToolEntries : List (String × JVal) → Option (List (String × ToolConfig))
  | [] => some []
  | (k, v) :: rest =>
    match ToolConfig.from_dict v, parseToolEntries rest with
    | some t, some ts => some ((k, t) :: ts)
    | _, _ => none

/-- Convert each entry of the `prompts` sub-document. -/
def parsePromptEntries : List (String × JVal) → Option (List (String × PromptConfig))
  | [] => some []
  | (k, v) :: rest =>
    match PromptConfig.from_dict v, parsePromptEntries rest with
    | some p, some ps => some ((k, p) :: ps)
    | _, _ => none

/-- `AgentConfigManager.to_dict` (`model_dump`): the six fields, nested
models dumped to documents. -/
def AgentConfigManager.to_dict (s : AgentConfigManager) : List (String × JVal) :=
  [("tools", JVal.obj (s.tools.map (fun p => (p.1, p.2.to_dict)))),
   ("prompts", JVal.obj (s.prompts.map (fun p => (p.1, p.2.to_dict)))),
   ("active_tools", JVal.arr (s.active_tools.map JVal.str)),
   ("active_prompt", JVal.str s.active_prompt),
   ("model_id", JVal.str s.model_id),
   ("debug", JVal.bool s.debug)]

/-- `AgentConfigManager.from_dict`: convert nested tool/prompt documents,
then build the store with pydantic defaults for absent fields; fields
other than the six declared ones are ignored. -/
def AgentConfigManager.from_dict (d : List (String × JVal)) : Option AgentConfigManager := do
  let tools ← getFieldD d "tools" [] (fun v => do
    let o ← v.asObj
    parseToolEntries o)
  let prompts ← getFieldD d "prompts" [] (fun v => do
    let o ← v.asObj
    parsePromptEntries o)
  let active_tools ← getFieldD d "active_tools" [] (fun v =>
    match v with
    | JVal.arr a => parseStrList a
    | _ => none)
  let active_prompt ← getFieldD d "active_prompt" "default" JVal.asStr
  let model_id ← getFieldD d "model_id" "openai/gpt-5" JVal.asStr
  let debug ← getFieldD d "debug" false JVal.asBool
  return { tools := tools, prompts := prompts, active_tools := active_tools,
           active_prompt := active_prompt, model_id := model_id, debug := debug }

/-!
Model of the lazy first-request initialization in main.py's `handler`.
The serving layer may run many handler invocations concurrently on one
cooperative scheduler; each invocation awaits the shared `_init_lock`,
checks the `_initialized` flag, and if it is unset runs
`initialize_config()`, then `initialize_tools()`, then
`initialize_agent()`, sets the flag, releases the lock and serves.
Interleaving is modelled by a nondeterministic small-step relation over
the global state; each task is identified by a natural number.
-/

namespace LazyInit

/-- Program counter of one handler invocation. -/
inductive PC where
  | idle
  | checking
  | loaded
  | toolsInited
  | agentInited
  | serving
  | finished
deriving DecidableEq

/-- Global state: each task's program counter, the holder of `_init_lock`,
the `_initialized` flag, and how many times each of the three setup steps
has executed. -/
structure SysState where
  tasks : Nat → PC
  lock : Option Nat
  initializedFlag : Bool
  loads : Nat
  toolInits : Nat
  agentInits : Nat

/-- A task between its flag check and its setting of the flag (it holds
the lock throughout). -/
def midPC (p : PC) : Prop :=
  p = PC.loaded ∨ p = PC.toolsInited ∨ p = PC.agentInited

instance (p : PC) : Decidable (midPC p) := by
  unfold midPC
  infer_instance

/-- One scheduler step of the handler: acquire the lock, observe the flag
set and skip, or run the three setup calls in order, set the flag and
release, then serve the request. -/
inductive Step : SysState → SysState → Prop where
  | acquire (s : SysState) (i : Nat) :
      s.tasks i = PC.idle → s.lock = none →
      Step s { s with tasks := Function.update s.tasks i PC.checking, lock := some i }
  | skipInit (s : SysState) (i : Nat) :
      s.tasks i = PC.checking → s.lock = some i → s.initializedFlag = true →
      Step s { s with tasks := Function.update s.tasks i PC.serving, lock := none }
  | doLoad (s : SysState) (i : Nat) :
      s.tasks i = PC.checking → s.lock = some i → s.initializedFlag = false →
      Step s { s with tasks := Function.update s.tasks i PC.loaded, loads := s.loads + 1 }
  | doTools (s : SysState) (i : Nat) :
      s.tasks i = PC.loaded → s.lock = some i →
      Step s { s with tasks := Function.update s.tasks i PC.toolsInited,
                      toolInits := s.toolInits + 1 }
  | doAgent (s : SysState) (i : Nat) :
      s.tasks i = PC.toolsInited → s.lock = some i →
      Step s { s with tasks := Function.update s.tasks i PC.agentInited,
                      agentInits := s.agentInits + 1 }
  | finishInit (s : SysState) (i : Nat) :
      s.tasks i = PC.agentInited → s.lock = some i →
      Step s { s with tasks := Function.update s.tasks i PC.serving,
                      initializedFlag := true, lock := none }
  | serve (s : SysState) (i : Nat) :
      s.tasks i = PC.serving →
      Step s { s with tasks := Function.update s.tasks i PC.finished }

/-- Before the first request: every task idle, lock free, flag unset,
no setup step has run. -/
def initState : SysState :=
  { tasks := fun _ => PC.idle
    lock := none
    initializedFlag := false
    loads := 0
    toolInits := 0
    agentInits := 0 }

/-- States reachable from the initial state by scheduler steps. -/
def Reachable (s : SysState) : Prop :=
  Relation.ReflTransGen Step initState s

end LazyInit

/-! Lemmas about the Python-dict and Python-list primitives. -/

theorem dictContains_eq_true_iff (k : String) (d : List (String × α)) :
    dictContains k d = true ↔ ∃ p ∈ d, p.1 = k := by
  simp [dictContains, List.any_eq_true]

theorem dictContains_dictInsert_of (n k : String) (v : α) (d : List (String × α))
    (h : n = k ∨ dictContains n d = true) :
    dictContains n (dictInsert k v d) = true := by
  rw [dictContains_eq_true_iff]
  unfold dictInsert
  split
  · rename_i hany
    rcases h with h | h
    · rcases (List.any_eq_true.mp hany) with ⟨p, hp, hpk⟩
      refine ⟨(k, v), List.mem_map.mpr ⟨p, hp, ?_⟩, h.symm ▸ rfl⟩
      simp [hpk]
    · rcases (dictContains_eq_true_iff n d).mp h with ⟨p, hp, hpn⟩
      by_cases hpk : p.1 = k
      · exact ⟨(k, v), List.mem_map.mpr ⟨p, hp, by simp [hpk]⟩, by
          rw [← hpn, hpk]⟩
      · exact ⟨p, List.mem_map.mpr ⟨p, hp, by simp [hpk]⟩, hpn⟩
  · rcases h with h | h
    · exact ⟨(k, v), by simp, h.symm⟩
    · rcases (dictContains_eq_true_iff n d).mp h with ⟨p, hp, hpn⟩
      exact ⟨p, List.mem_append_left _ hp, hpn⟩

theorem dictContains_dictErase (n k : String) (d : List (String × α)) (h : n ≠ k) :
    dictContains n (dictErase k d) = dictContains n d := by
  have hkn : (k == n) = false := beq_eq_false_iff_ne.mpr fun hc => h hc.symm
  induction d with
  | nil => rfl
  | cons p rest ih =>
    by_cases hpk : p.1 = k
    · simp [dictErase, dictContains, hpk, hkn] at ih ⊢
      exact ih
    · simp [dictErase, dictContains, hpk] at ih ⊢
      rw [ih]

theorem dictContains_dictModify (n k : String) (f : α → α) (d : List (String × α)) :
    dictContains n (dictModify k f d) = dictContains n d := by
  induction d with
  | nil => rfl
  | cons p rest ih =>
    by_cases hpk : p.1 = k
    · simp [dictModify, dictContains, hpk] at ih ⊢
      rw [ih]
    · simp [dictModify, dictContains, hpk] at ih ⊢
      rw [ih]

theorem dictGet_dictInsert_self (k : String) (v : α) (d : List (String × α)) :
    dictGet k (dictInsert k v d) = some v := by
  unfold dictInsert
  split
  · rename_i hany
    induction d with
    | nil => simp at hany
    | cons p rest ih =>
      by_cases hpk : p.1 = k
      · simp [dictGet, List.find?_cons, hpk]
      · have hrest : rest.any (fun p => p.1 == k) = true := by
          simpa [List.any_cons, hpk] using hany
        simpa [dictGet, List.find?_cons, hpk] using ih hrest
  · rename_i hany
    induction d with
    | nil => simp [dictGet]
    | cons p rest ih =>
      have hpk : ¬ p.1 = k := by
        intro hc
        simp [List.any_cons, hc] at hany
      have hrest : ¬ rest.any (fun p => p.1 == k) = true := by
        intro hc
        simp [List.any_cons, hc] at hany
      simpa [dictGet, List.find?_cons, hpk] using ih hrest

theorem listRemoveFirst_sublist (x : String) (l : List String) :
    (listRemoveFirst x l).Sublist l := by
  induction l with
  | nil => exact List.Sublist.refl _
  | cons y ys ih =>
    by_cases hyx : y = x
    · simp only [listRemoveFirst, if_pos hyx]
      exact List.sublist_cons_self y ys
    · simp only [listRemoveFirst, if_neg hyx]
      exact ih.cons₂ y

theorem nodup_listRemoveFirst (x : String) (l : List String) (h : l.Nodup) :
    (listRemoveFirst x l).Nodup :=
  (listRemoveFirst_sublist x l).nodup h

theorem mem_of_mem_listRemoveFirst {n x : String} {l : List String}
    (h : n ∈ listRemoveFirst x l) : n ∈ l :=
  (listRemoveFirst_sublist x l).subset h

theorem not_mem_listRemoveFirst_self (x : String) (l : List String) (h : l.Nodup) :
    x ∉ listRemoveFirst x l := by
  induction l with
  | nil => simp [listRemoveFirst]
  | cons y ys ih =>
    by_cases hyx : y = x
    · simp only [listRemoveFirst, hyx, if_pos rfl]
      exact hyx ▸ (List.nodup_cons.mp h).1
    · have hys := ih (List.nodup_cons.mp h).2
      simp [listRemoveFirst, hyx]
      exact ⟨fun hc => hyx hc.symm, hys⟩

/-! The configuration-store invariant and its preservation by the
mutators. -/

/-- The §3 invariant: `active_tools` has no duplicate names and every
name in it is a key of `tools`. -/
def StoreInv (s : AgentConfigManager) : Prop :=
  s.active_tools.Nodup ∧ ∀ n ∈ s.active_tools, dictContains n s.tools = true

instance (s : AgentConfigManager) : Decidable (StoreInv s) := by
  unfold StoreInv
  exact instDecidableAnd

/-- A mutating call on the configuration store. -/
inductive StoreOp where
  | addT (t : ToolConfig)
  | removeT (n : String)
  | enableT (n : String)
  | disableT (n : String)

/-- Apply one mutating call. -/
def applyOp (s : AgentConfigManager) : StoreOp → AgentConfigManager
  | StoreOp.addT t => s.add_tool t
  | StoreOp.removeT n => s.remove_tool n
  | StoreOp.enableT n => s.enable_tool n
  | StoreOp.disableT n => s.disable_tool n

/-- Apply a sequence of mutating calls, first call first. -/
def applyOps (s : AgentConfigManager) (ops : List StoreOp) : AgentConfigManager :=
  ops.foldl applyOp s

theorem storeInv_add_tool (s : AgentConfigManager) (t : ToolConfig) (h : StoreInv s) :
    StoreInv (s.add_tool t) := by
  obtain ⟨hnd, hmem⟩ := h
  unfold AgentConfigManager.add_tool StoreInv
  by_cases hc : t.enabled = true ∧ t.name ∉ s.active_tools
  · simp only [if_pos hc]
    constructor
    · simpa [List.nodup_append] using ⟨hnd, fun hc2 => hc.2 hc2⟩
    · intro n hn
      rcases List.mem_append.mp hn with hn | hn
      · exact dictContains_dictInsert_of n t.name t s.tools (Or.inr (hmem n hn))
      · have : n = t.name := by simpa using hn
        exact dictContains_dictInsert_of n t.name t s.tools (Or.inl this)
  · simp only [if_neg hc]
    refine ⟨hnd, fun n hn => ?_⟩
    exact dictContains_dictInsert_of n t.name t s.tools (Or.inr (hmem n hn))

theorem storeInv_remove_tool (s : AgentConfigManager) (name : String) (h : StoreInv s) :
    StoreInv (s.remove_tool name) := by
  obtain ⟨hnd, hmem⟩ := h
  unfold AgentConfigManager.remove_tool StoreInv
  by_cases hact : name ∈ s.active_tools
  · simp only [if_pos hact]
    refine ⟨nodup_listRemoveFirst name s.active_tools hnd, fun n hn => ?_⟩
    have hn0 : n ∈ s.active_tools := mem_of_mem_listRemoveFirst hn
    have hne : n ≠ name := by
      intro hc
      exact not_mem_listRemoveFirst_self name s.active_tools hnd (hc ▸ hn)
    by_cases htl : dictContains name s.tools = true
    · simp only [if_pos htl]
      rw [dictContains_dictErase n name s.tools hne]
      exact hmem n hn0
    · simp only [if_neg htl]
      exact hmem n hn0
  · simp only [if_neg hact]
    refine ⟨hnd, fun n hn => ?_⟩
    have hne : n ≠ name := fun hc => hact (hc ▸ hn)
    by_cases htl : dictContains name s.tools = true
    · simp only [if_pos htl]
      rw [dictContains_dictErase n name s.tools hne]
      exact hmem n hn
    · simp only [if_neg htl]
      exact hmem n hn

theorem storeInv_enable_tool (s : AgentConfigManager) (name : String) (h : StoreInv s) :
    StoreInv (s.enable_tool name) := by
  obtain ⟨hnd, hmem⟩ := h
  unfold AgentConfigManager.enable_tool
  by_cases htl : dictContains name s.tools = true
  · simp only [if_pos htl]
    by_cases hact : name ∉ s.active_tools
    · simp only [if_pos hact]
      constructor
      · simpa [List.nodup_append] using ⟨hnd, fun hc => hact hc⟩
      · intro n hn
        rw [dictContains_dictModify n name _ s.tools]
        rcases List.mem_append.mp hn with hn | hn
        · exact hmem n hn
        · have : n = name := by simpa using hn
          exact this ▸ htl
    · simp only [if_neg hact]
      refine ⟨hnd, fun n hn => ?_⟩
      rw [dictContains_dictModify n name _ s.tools]
      exact hmem n hn
  · simp only [if_neg htl]
    exact ⟨hnd, hmem⟩

theorem storeInv_disable_tool (s : AgentConfigManager) (name : String) (h : StoreInv s) :
    StoreInv (s.disable_tool name) := by
  obtain ⟨hnd, hmem⟩ := h
  unfold AgentConfigManager.disable_tool StoreInv
  have htools : ∀ n, dictContains n
      (if dictContains name s.tools = true then
        dictModify name (fun t => { t with enabled := false }) s.tools
      else s.tools) = dictContains n s.tools := by
    intro n
    by_cases htl : dictContains name s.tools = true
    · simp only [if_pos htl]
      exact dictContains_dictModify n name _ s.tools
    · simp only [if_neg htl]
  by_cases hact : name ∈ s.active_tools
  · simp only [if_pos hact]
    refine ⟨nodup_listRemoveFirst name s.active_tools hnd, fun n hn => ?_⟩
    rw [htools n]
    exact hmem n (mem_of_mem_listRemoveFirst hn)
  · simp only [if_neg hact]
    refine ⟨hnd, fun n hn => ?_⟩
    rw [htools n]
    exact hmem n hn

theorem storeInv_applyOp (s : AgentConfigManager) (op : StoreOp) (h : StoreInv s) :
    StoreInv (applyOp s op) := by
  cases op with
  | addT t => exact storeInv_add_tool s t h
  | removeT n => exact storeInv_remove_tool s n h
  | enableT n => exact storeInv_enable_tool s n h
  | disableT n => exact storeInv_disable_tool s n h

/-- C1: starting from any store whose `active_tools` satisfies the
invariant (no duplicates, every name a key of `tools`), every sequence of
`add_tool` / `remove_tool` / `enable_tool` / `disable_tool` calls leaves
the invariant intact. -/
theorem c1_active_tools_invariant (s : AgentConfigManager) (h : StoreInv s)
    (ops : List StoreOp) : StoreInv (applyOps s ops) := by
  induction ops generalizing s with
  | nil => exact h
  | cons op rest ih => exact ih (applyOp s op) (storeInv_applyOp s op h)

/-- C1 witness: the invariant holds for the default store and is
preserved across a concrete add/disable/enable/remove sequence. -/
theorem c1_active_tools_invariant_witness :
    StoreInv ({} : AgentConfigManager) ∧
    StoreInv (applyOps ({} : AgentConfigManager)
      [StoreOp.addT { name := "firecrawl", command := "npx -y firecrawl-mcp" },
       StoreOp.addT { name := "airbnb", command := "npx -y mcp-server-airbnb" },
       StoreOp.disableT "firecrawl",
       StoreOp.enableT "firecrawl",
       StoreOp.removeT "airbnb",
       StoreOp.removeT "missing"]) :=
  ⟨by decide,
   c1_active_tools_invariant ({} : AgentConfigManager) (by decide)
     [StoreOp.addT { name := "firecrawl", command := "npx -y firecrawl-mcp" },
      StoreOp.addT { name := "airbnb", command := "npx -y mcp-server-airbnb" },
      StoreOp.disableT "firecrawl",
      StoreOp.enableT "firecrawl",
      StoreOp.removeT "airbnb",
      StoreOp.removeT "missing"]⟩

/-! Unknown-name mutators (C6) and the disabled-add frame property (C10). -/

/-- C6 counterexample: in a store whose `active_tools` holds a stale name
absent from `tools`, `remove_tool` on that (unknown) name is not a full
no-op — it drops the stale name from `active_tools`. -/
theorem c6_unknown_name_noop_cex :
    dictContains "x" ({ active_tools := ["x"] } : AgentConfigManager).tools = false ∧
    ({ active_tools := ["x"] } : AgentConfigManager).remove_tool "x" ≠
      ({ active_tools := ["x"] } : AgentConfigManager) := by
  decide

/-- C6 (amended): on a store satisfying the `active_tools` invariant,
`remove_tool`, `enable_tool` and `disable_tool` with a name unknown in
`tools`, and `set_active_prompt` with a name unknown in `prompts`, are
full no-ops (and never raise); without the invariant, `remove_tool` and
`disable_tool` may additionally drop a stale name from `active_tools`. -/
theorem c6_unknown_name_noop (s : AgentConfigManager) (h : StoreInv s)
    (name pname : String)
    (hn : dictContains name s.tools = false)
    (hp : dictContains pname s.prompts = false) :
    s.remove_tool name = s ∧ s.enable_tool name = s ∧ s.disable_tool name = s ∧
    s.set_active_prompt pname = s := by
  have hact : name ∉ s.active_tools := by
    intro hc
    have htrue := h.2 name hc
    rw [hn] at htrue
    exact Bool.false_ne_true htrue
  refine ⟨?_, ?_, ?_, ?_⟩
  · simp [AgentConfigManager.remove_tool, hn, hact]
  · simp [AgentConfigManager.enable_tool, hn]
  · simp [AgentConfigManager.disable_tool, hn, hact]
  · simp [AgentConfigManager.set_active_prompt, hp]

/-- Concrete invariant-satisfying store used by the C6 witness. -/
def c6Store : AgentConfigManager :=
  { tools := [("t", { name := "t", command := "c" })]
    prompts := [("default", { name := "default", template := "hi" })]
    active_tools := ["t"] }

/-- C6 witness: concrete invariant-satisfying store, concrete unknown
names. -/
theorem c6_unknown_name_noop_witness :
    c6Store.remove_tool "ghost" = c6Store ∧
    c6Store.enable_tool "ghost" = c6Store ∧
    c6Store.disable_tool "ghost" = c6Store ∧
    c6Store.set_active_prompt "missing" = c6Store :=
  c6_unknown_name_noop c6Store (by decide) "ghost" "missing" (by decide) (by decide)

/-- C10: adding a tool with `enabled = false` overwrites only the
`tools` entry — `active_tools` (and every other field) is untouched, a
name already active stays active, the added definition is found by
lookup, and the per-name active filter rejects it precisely through the
enabled test. -/
theorem c10_add_disabled_tool_frame (s : AgentConfigManager) (t : ToolConfig)
    (h : t.enabled = false) :
    s.add_tool t = { s with tools := dictInsert t.name t s.tools } ∧
    (t.name ∈ s.active_tools → t.name ∈ (s.add_tool t).active_tools) ∧
    dictGet t.name (s.add_tool t).tools = some t ∧
    (s.add_tool t).activeLookup t.name = none := by
  have heq : s.add_tool t = { s with tools := dictInsert t.name t s.tools } := by
    simp [AgentConfigManager.add_tool, h]
  refine ⟨heq, ?_, ?_, ?_⟩
  · intro hm
    rw [heq]
    exact hm
  · rw [heq]
    exact dictGet_dictInsert_self t.name t s.tools
  · rw [AgentConfigManager.activeLookup, heq]
    simp [dictGet_dictInsert_self, h]

/-- Concrete store used by the C10 witness: name `"x"` is active. -/
def c10Store : AgentConfigManager :=
  { tools := [("x", { name := "x", command := "c" })]
    active_tools := ["x"] }

/-- Disabled redefinition of `"x"` used by the C10 witness. -/
def c10Tool : ToolConfig :=
  { name := "x", command := "c2", enabled := false }

/-- C10 witness: an already-active name re-added with `enabled = false`
stays in `active_tools` but is dropped by the enabled filter. -/
theorem c10_add_disabled_tool_frame_witness :
    c10Store.add_tool c10Tool =
      { c10Store with tools := dictInsert c10Tool.name c10Tool c10Store.tools } ∧
    (c10Tool.name ∈ c10Store.active_tools →
      c10Tool.name ∈ (c10Store.add_tool c10Tool).active_tools) ∧
    dictGet c10Tool.name (c10Store.add_tool c10Tool).tools = some c10Tool ∧
    (c10Store.add_tool c10Tool).activeLookup c10Tool.name = none :=
  c10_add_disabled_tool_frame c10Store c10Tool (by decide)

/-! Tool lifecycle manager: initialization and shutdown behaviour. -/

theorem initializeManager_no_active_tools (tm : ToolManager)
    (env : List (String × String)) (cr : Except String Unit) (mk : Option String)
    (hflag : tm.is_connected_flag = false)
    (h : tm.config.get_active_tools = []) :
    tm.initializeManager env cr mk = (tm, [InitLog.noToolsConfigured]) := by
  simp [ToolManager.initializeManager, hflag, h]

/-- C3: with zero active tools, `initialize` on a fresh manager prints
the no-tools warning and leaves the manager disconnected. -/
theorem c3_no_tools_warns_and_stays_disconnected (cfg : AgentConfigManager)
    (env : List (String × String)) (cr : Except String Unit) (mk : Option String)
    (h : cfg.get_active_tools = []) :
    ((ToolManager.init cfg).initializeManager env cr mk).1.is_connected = false ∧
    InitLog.noToolsConfigured ∈ ((ToolManager.init cfg).initializeManager env cr mk).2 := by
  rw [initializeManager_no_active_tools (ToolManager.init cfg) env cr mk rfl h]
  exact ⟨rfl, by simp⟩

/-- C3 witness: the empty default store has zero active tools. -/
theorem c3_no_tools_warns_and_stays_disconnected_witness :
    ((ToolManager.init {}).initializeManager [] (Except.ok ()) none).1.is_connected
      = false ∧
    InitLog.noToolsConfigured ∈
      ((ToolManager.init {}).initializeManager [] (Except.ok ()) none).2 :=
  c3_no_tools_warns_and_stays_disconnected {} [] (Except.ok ()) none rfl

/-- C2 counterexample: with zero active tools `initialize` returns before
setting the connected flag, so the manager does not end up `Connected`
as the claim states. -/
theorem c2_no_tools_connected_cex :
    ({} : AgentConfigManager).get_active_tools = [] ∧
    ((ToolManager.init {}).initializeManager [] (Except.ok ()) none).1.is_connected
      ≠ true := by
  decide

/-- C2 (amended): with zero active tools, `initialize` on a fresh
manager completes without raising, leaves the manager entirely unchanged
— hence still `Disconnected` (not `Connected`) — and `get_tools_list()`
afterwards returns the empty sequence. -/
theorem c2_no_tools_initialize_result (cfg : AgentConfigManager)
    (env : List (String × String)) (cr : Except String Unit) (mk : Option String)
    (h : cfg.get_active_tools = []) :
    ((ToolManager.init cfg).initializeManager env cr mk).1 = ToolManager.init cfg ∧
    ((ToolManager.init cfg).initializeManager env cr mk).1.get_tools_list = [] ∧
    ((ToolManager.init cfg).initializeManager env cr mk).1.is_connected = false := by
  rw [initializeManager_no_active_tools (ToolManager.init cfg) env cr mk rfl h]
  exact ⟨rfl, rfl, rfl⟩

/-- C2 witness: concrete empty store, concrete environment and Mem0 key. -/
theorem c2_no_tools_initialize_result_witness :
    ((ToolManager.init {}).initializeManager [("PATH", "/bin")] (Except.ok ())
      (some "k")).1 = ToolManager.init {} ∧
    ((ToolManager.init {}).initializeManager [("PATH", "/bin")] (Except.ok ())
      (some "k")).1.get_tools_list = [] ∧
    ((ToolManager.init {}).initializeManager [("PATH", "/bin")] (Except.ok ())
      (some "k")).1.is_connected = false :=
  c2_no_tools_initialize_result {} [("PATH", "/bin")] (Except.ok ()) (some "k") rfl

/-- Store with a single active enabled tool whose (non-empty) launch
command will fail to connect; used by the C4 counterexample. -/
def c4Store : AgentConfigManager :=
  { tools := [("t1", { name := "t1", command := "bad-command" })]
    active_tools := ["t1"] }

/-- C4 counterexample: when `connect()` raises, the handle assigned just
before the failed await stays in `mcp_tools`, so the multiplexed handle
is not absent as the claim states. -/
theorem c4_failed_connect_handle_cex :
    c4Store.get_active_tools = [{ name := "t1", command := "bad-command" }] ∧
    ((ToolManager.init c4Store).initializeManager [] (Except.error "spawn failed")
      none).1.mcp_tools ≠ none := by
  decide

/-- C4 (amended): with exactly one active enabled tool whose connection
attempt raises, `initialize` completes without propagating the
exception, sets the state to `Connected`, and leaves the multiplexed
handle field holding the handle constructed before the failed
`connect()` (its connection never established) rather than absent. -/
theorem c4_failed_connect_result (cfg : AgentConfigManager) (t : ToolConfig)
    (env : List (String × String)) (e : String) (mk : Option String)
    (hact : cfg.get_active_tools = [t]) (hcmd : t.command.isEmpty = false) :
    ((ToolManager.init cfg).initializeManager env (Except.error e) mk).1.is_connected
      = true ∧
    ((ToolManager.init cfg).initializeManager env (Except.error e) mk).1.mcp_tools =
      some { commands := [t.command], env := env, allowPartialFailure := true,
             timeout_seconds := t.timeout, connected := false } := by
  cases mk with
  | none =>
    constructor <;>
      simp [ToolManager.initializeManager, ToolManager.init, ToolManager.is_connected,
        hact, hcmd, pyMax]
  | some k =>
    constructor <;>
      simp [ToolManager.initializeManager, ToolManager.init, ToolManager.is_connected,
        hact, hcmd, pyMax]

/-- C4 witness: the concrete one-bad-tool store. -/
theorem c4_failed_connect_result_witness :
    ((ToolManager.init c4Store).initializeManager [] (Except.error "boom")
      none).1.is_connected = true ∧
    ((ToolManager.init c4Store).initializeManager [] (Except.error "boom")
      none).1.mcp_tools =
      some { commands := ["bad-command"], env := [], allowPartialFailure := true,
             timeout_seconds := 30, connected := false } :=
  c4_failed_connect_result c4Store { name := "t1", command := "bad-command" }
    [] "boom" none (by decide) (by decide)

/-- Manager holding both handles; used by the C5 counterexample. -/
def c5Manager : ToolManager :=
  { config := {}
    mcp_tools := some { commands := ["c"], env := [], allowPartialFailure := true,
                        timeout_seconds := 30, connected := true }
    mem0_tools := some { api_key := "k" }
    is_connected_flag := true }

/-- C5 counterexample: `shutdown` clears neither handle field, so after
it returns the multiplexed handle is still present and
`get_tools_list()` is not empty, contrary to the claim. -/
theorem c5_shutdown_clears_handles_cex :
    (c5Manager.shutdown (Except.ok ())).mcp_tools ≠ none ∧
    (c5Manager.shutdown (Except.ok ())).get_tools_list ≠ [] := by
  decide

/-- C5 (amended): `shutdown` always completes (close failures are caught
and logged), sets the state to `Disconnected` and is idempotent, but it
leaves both handle fields — and therefore `get_tools_list()` — exactly
as they were rather than clearing them. -/
theorem c5_shutdown_result (tm : ToolManager) (cr cr2 : Except String Unit) :
    (tm.shutdown cr).is_connected = false ∧
    (tm.shutdown cr).mcp_tools = tm.mcp_tools ∧
    (tm.shutdown cr).mem0_tools = tm.mem0_tools ∧
    (tm.shutdown cr).get_tools_list = tm.get_tools_list ∧
    (tm.shutdown cr).shutdown cr2 = tm.shutdown cr :=
  ⟨rfl, rfl, rfl, rfl, rfl⟩

/-- Store with one connectable tool and one active enabled tool with an
empty command but a larger timeout; used by the C7 counterexample. -/
def c7Store : AgentConfigManager :=
  { tools := [("a", { name := "a", command := "run-a", timeout := 5 }),
              ("b", { name := "b", command := "", timeout := 99 })]
    active_tools := ["a", "b"] }

/-- C7 counterexample: the timeout passed to the connection layer is the
max over all active enabled tools (99, from the empty-command tool `b`),
not the max over the selected tools with non-empty commands (5). -/
theorem c7_timeout_selected_cex :
    Option.map (fun h => h.timeout_seconds)
      ((ToolManager.init c7Store).initializeManager [] (Except.ok ())
        none).1.mcp_tools = some 99 ∧
    pyMax (((c7Store.get_active_tools).filter
      (fun t => ¬ t.command.isEmpty)).map (fun t => t.timeout)) = 5 ∧
    (99 : Int) ≠ 5 := by
  decide

/-- C7 (amended): whenever `initialize` opens the multiplexed connection
(some active enabled tool has a non-empty command), the timeout passed
to the connection layer is the maximum `timeout` over all active enabled
tools — including those whose command is empty. -/
theorem c7_timeout_max_over_enabled (cfg : AgentConfigManager)
    (env : List (String × String)) (cr : Except String Unit) (mk : Option String)
    (hne : (cfg.get_active_tools).filter (fun t => ¬ t.command.isEmpty) ≠ []) :
    Option.map (fun h => h.timeout_seconds)
      ((ToolManager.init cfg).initializeManager env cr mk).1.mcp_tools =
      some (pyMax ((cfg.get_active_tools).map (fun t => t.timeout))) := by
  have hl : cfg.get_active_tools ≠ [] := by
    intro hc
    exact hne (by simp [hc])
  have hx : ¬ ∀ a ∈ cfg.get_active_tools, a.command.isEmpty = true := by
    intro hall
    apply hne
    apply List.filter_eq_nil_iff.mpr
    intro a ha
    simp [hall a ha]
  cases cr with
  | ok u =>
    cases mk with
    | none => simp [ToolManager.initializeManager, ToolManager.init, hl, hne, hx]
    | some k => simp [ToolManager.initializeManager, ToolManager.init, hl, hne, hx]
  | error e =>
    cases mk with
    | none => simp [ToolManager.initializeManager, ToolManager.init, hl, hne, hx]
    | some k => simp [ToolManager.initializeManager, ToolManager.init, hl, hne, hx]

/-- C7 witness: a concrete two-tool store where the connection opens. -/
theorem c7_timeout_max_over_enabled_witness :
    (c7Store.get_active_tools).filter (fun t => ¬ t.command.isEmpty) ≠ [] ∧
    Option.map (fun h => h.timeout_seconds)
      ((ToolManager.init c7Store).initializeManager [] (Except.ok ())
        (some "k")).1.mcp_tools =
      some (pyMax ((c7Store.get_active_tools).map (fun t => t.timeout))) :=
  ⟨by decide,
   c7_timeout_max_over_enabled c7Store [] (Except.ok ()) (some "k") (by decide)⟩

/-! Serialization round trip (C8). -/

theorem parseStrPairs_roundtrip (l : List (String × String)) :
    parseStrPairs (l.map (fun p => (p.1, JVal.str p.2))) = some l := by
  induction l with
  | nil => rfl
  | cons p rest ih => simp [parseStrPairs, JVal.asStr, ih]

theorem parseStrList_roundtrip (l : List String) :
    parseStrList (l.map JVal.str) = some l := by
  induction l with
  | nil => rfl
  | cons x rest ih => simp [parseStrList, JVal.asStr, ih]

theorem toolConfig_roundtrip (t : ToolConfig) :
    ToolConfig.from_dict (ToolConfig.to_dict t) = some t := by
  simp [ToolConfig.from_dict, ToolConfig.to_dict, JVal.asObj, getFieldReq, getFieldD,
    dictGet, JVal.asStr, JVal.asBool, JVal.asInt, parseStrPairs_roundtrip]

theorem promptConfig_roundtrip (p : PromptConfig) :
    PromptConfig.from_dict (PromptConfig.to_dict p) = some p := by
  simp [PromptConfig.from_dict, PromptConfig.to_dict, JVal.asObj, getFieldReq,
    getFieldD, dictGet, JVal.asStr, JVal.asBool]

theorem parseToolEntries_roundtrip (l : List (String × ToolConfig)) :
    parseToolEntries (l.map (fun p => (p.1, ToolConfig.to_dict p.2))) = some l := by
  induction l with
  | nil => rfl
  | cons p rest ih => simp [parseToolEntries, toolConfig_roundtrip, ih]

theorem parsePromptEntries_roundtrip (l : List (String × PromptConfig)) :
    parsePromptEntries (l.map (fun p => (p.1, PromptConfig.to_dict p.2))) = some l := by
  induction l with
  | nil => rfl
  | cons p rest ih => simp [parsePromptEntries, promptConfig_roundtrip, ih]

theorem dictGet_append_unknown (doc : List (String × JVal)) (f k : String) (v : JVal)
    (h : f ≠ k) : dictGet f (doc ++ [(k, v)]) = dictGet f doc := by
  have hkf : (k == f) = false := beq_eq_false_iff_ne.mpr fun hc => h hc.symm
  induction doc with
  | nil => simp [dictGet, List.find?, hkf]
  | cons p rest ih =>
    by_cases hpf : p.1 = f
    · simp [dictGet, List.find?_cons, hpf]
    · simpa [dictGet, List.find?_cons, hpf] using ih

/-- C8: serialize→deserialize round-trips any store field-for-field;
deserialize ignores an unknown top-level field, produces every
documented default on an empty document, and fills a tool's missing
optional fields with the documented defaults — all without failing. -/
theorem c8_serialize_deserialize_roundtrip (s : AgentConfigManager)
    (doc : List (String × JVal)) (k : String) (v : JVal)
    (hk : k ∉ (["tools", "prompts", "active_tools", "active_prompt", "model_id",
      "debug"] : List String)) :
    AgentConfigManager.from_dict (AgentConfigManager.to_dict s) = some s ∧
    AgentConfigManager.from_dict (doc ++ [(k, v)]) =
      AgentConfigManager.from_dict doc ∧
    AgentConfigManager.from_dict [] = some ({} : AgentConfigManager) ∧
    (∀ n c : String,
      ToolConfig.from_dict (JVal.obj [("name", JVal.str n), ("command", JVal.str c)])
        = some { name := n, command := c }) := by
  refine ⟨?_, ?_, rfl, ?_⟩
  · simp [AgentConfigManager.from_dict, AgentConfigManager.to_dict, getFieldD,
      dictGet, JVal.asObj, JVal.asStr, JVal.asBool, parseToolEntries_roundtrip,
      parsePromptEntries_roundtrip, parseStrList_roundtrip]
  · have h1 := dictGet_append_unknown doc "tools" k v (fun hc => hk (by simp [hc]))
    have h2 := dictGet_append_unknown doc "prompts" k v (fun hc => hk (by simp [hc]))
    have h3 := dictGet_append_unknown doc "active_tools" k v
      (fun hc => hk (by simp [hc]))
    have h4 := dictGet_append_unknown doc "active_prompt" k v
      (fun hc => hk (by simp [hc]))
    have h5 := dictGet_append_unknown doc "model_id" k v (fun hc => hk (by simp [hc]))
    have h6 := dictGet_append_unknown doc "debug" k v (fun hc => hk (by simp [hc]))
    simp only [AgentConfigManager.from_dict, getFieldD, h1, h2, h3, h4, h5, h6]
  · intro n c
    rfl

/-- Tool entry of the C8 witness store. -/
def c8Tool : ToolConfig :=
  { name := "firecrawl"
    command := "npx -y firecrawl-mcp"
    environment := [("FIRECRAWL_API_KEY", "secret")]
    description := "scraper" }

/-- Prompt entry of the C8 witness store. -/
def c8Prompt : PromptConfig :=
  { name := "default"
    template := "You extract."
    version := "2.0" }

/-- Populated store used by the C8 witness. -/
def c8Store : AgentConfigManager :=
  { tools := [("firecrawl", c8Tool)]
    prompts := [("default", c8Prompt)]
    active_tools := ["firecrawl"]
    active_prompt := "default"
    model_id := "openai/gpt-5"
    debug := true }

/-- C8 witness: concrete populated store, concrete document with an
unknown extra field. -/
theorem c8_serialize_deserialize_roundtrip_witness :
    AgentConfigManager.from_dict (AgentConfigManager.to_dict c8Store) = some c8Store ∧
    AgentConfigManager.from_dict
        ([("active_prompt", JVal.str "p")] ++ [("unknown_key", JVal.int 7)]) =
      AgentConfigManager.from_dict [("active_prompt", JVal.str "p")] ∧
    AgentConfigManager.from_dict [] = some ({} : AgentConfigManager) ∧
    (∀ n c : String,
      ToolConfig.from_dict (JVal.obj [("name", JVal.str n), ("command", JVal.str c)])
        = some { name := n, command := c }) :=
  c8_serialize_deserialize_roundtrip c8Store [("active_prompt", JVal.str "p")]
    "unknown_key" (JVal.int 7) (by decide)

/-! At-most-once lazy initialization (C9). -/

namespace LazyInit

/-- Inductive invariant of the lazy-initialization protocol. -/
structure Inv (s : SysState) : Prop where
  loads_le : s.loads ≤ 1
  tools_le : s.toolInits ≤ s.loads
  agent_le : s.agentInits ≤ s.toolInits
  mid_lock : ∀ i, midPC (s.tasks i) → s.lock = some i
  flag_done : s.initializedFlag = true →
    s.loads = 1 ∧ s.toolInits = 1 ∧ s.agentInits = 1
  no_mid_no_load : s.initializedFlag = false →
    (∀ i, ¬ midPC (s.tasks i)) → s.loads = 0
  loaded_counts : ∀ i, s.tasks i = PC.loaded →
    s.loads = 1 ∧ s.toolInits = 0 ∧ s.agentInits = 0 ∧ s.initializedFlag = false
  toolsInited_counts : ∀ i, s.tasks i = PC.toolsInited →
    s.loads = 1 ∧ s.toolInits = 1 ∧ s.agentInits = 0 ∧ s.initializedFlag = false
  agentInited_counts : ∀ i, s.tasks i = PC.agentInited →
    s.loads = 1 ∧ s.toolInits = 1 ∧ s.agentInits = 1 ∧ s.initializedFlag = false
  serving_flag : ∀ i, s.tasks i = PC.serving ∨ s.tasks i = PC.finished →
    s.initializedFlag = true

theorem inv_init : Inv initState := by
  refine ⟨?_, ?_, ?_, ?_, ?_, ?_, ?_, ?_, ?_, ?_⟩ <;>
    simp [initState, midPC]

theorem no_mid_of_lock_holder (s : SysState) (i : Nat)
    (hml : ∀ j, midPC (s.tasks j) → s.lock = some j)
    (hlock : s.lock = some i) (hi : ¬ midPC (s.tasks i)) :
    ∀ j, ¬ midPC (s.tasks j) := by
  intro j hj
  have hsome := hml j hj
  rw [hlock] at hsome
  obtain rfl := Option.some.inj hsome
  exact hi hj

theorem inv_step (s s' : SysState) (h : Inv s) (hs : Step s s') : Inv s' := by
  cases hs with
  | acquire i hidle hlock =>
    have hnomid : ∀ j, ¬ midPC (s.tasks j) := by
      intro j hj
      have hsome := h.mid_lock j hj
      rw [hlock] at hsome
      exact Option.noConfusion hsome
    refine ⟨h.loads_le, h.tools_le, h.agent_le, ?_, h.flag_done, ?_, ?_, ?_, ?_, ?_⟩
    · intro j hj
      simp only [Function.update_apply] at hj
      by_cases hji : j = i
      · rw [if_pos hji] at hj
        exact absurd hj (by decide)
      · rw [if_neg hji] at hj
        exact absurd hj (hnomid j)
    · intro hf _
      exact h.no_mid_no_load hf hnomid
    · intro j hj
      simp only [Function.update_apply] at hj
      by_cases hji : j = i
      · rw [if_pos hji] at hj
        exact PC.noConfusion hj
      · rw [if_neg hji] at hj
        exact absurd (Or.inl hj) (hnomid j)
    · intro j hj
      simp only [Function.update_apply] at hj
      by_cases hji : j = i
      · rw [if_pos hji] at hj
        exact PC.noConfusion hj
      · rw [if_neg hji] at hj
        exact absurd (Or.inr (Or.inl hj)) (hnomid j)
    · intro j hj
      simp only [Function.update_apply] at hj
      by_cases hji : j = i
      · rw [if_pos hji] at hj
        exact PC.noConfusion hj
      · rw [if_neg hji] at hj
        exact absurd (Or.inr (Or.inr hj)) (hnomid j)
    · intro j hj
      simp only [Function.update_apply] at hj
      by_cases hji : j = i
      · rw [if_pos hji] at hj
        rcases hj with hj | hj <;> exact PC.noConfusion hj
      · rw [if_neg hji] at hj
        exact h.serving_flag j hj
  | skipInit i hcheck hlock hflag =>
    have hnomid : ∀ j, ¬ midPC (s.tasks j) := by
      refine no_mid_of_lock_holder s i h.mid_lock hlock ?_
      rw [hcheck]
      decide
    refine ⟨h.loads_le, h.tools_le, h.agent_le, ?_, h.flag_done, ?_, ?_, ?_, ?_, ?_⟩
    · intro j hj
      simp only [Function.update_apply] at hj
      by_cases hji : j = i
      · rw [if_pos hji] at hj
        exact absurd hj (by decide)
      · rw [if_neg hji] at hj
        exact absurd hj (hnomid j)
    · intro hf
      rw [hflag] at hf
      exact Bool.noConfusion hf
    · intro j hj
      simp only [Function.update_apply] at hj
      by_cases hji : j = i
      · rw [if_pos hji] at hj
        exact PC.noConfusion hj
      · rw [if_neg hji] at hj
        exact absurd (Or.inl hj) (hnomid j)
    · intro j hj
      simp only [Function.update_apply] at hj
      by_cases hji : j = i
      · rw [if_pos hji] at hj
        exact PC.noConfusion hj
      · rw [if_neg hji] at hj
        exact absurd (Or.inr (Or.inl hj)) (hnomid j)
    · intro j hj
      simp only [Function.update_apply] at hj
      by_cases hji : j = i
      · rw [if_pos hji] at hj
        exact PC.noConfusion hj
      · rw [if_neg hji] at hj
        exact absurd (Or.inr (Or.inr hj)) (hnomid j)
    · intro j hj
      exact hflag
  | doLoad i hcheck hlock hflag =>
    have hnomid : ∀ j, ¬ midPC (s.tasks j) := by
      refine no_mid_of_lock_holder s i h.mid_lock hlock ?_
      rw [hcheck]
      decide
    have hload0 : s.loads = 0 := h.no_mid_no_load hflag hnomid
    have htool0 : s.toolInits = 0 := Nat.le_zero.mp (hload0 ▸ h.tools_le)
    have hagent0 : s.agentInits = 0 := Nat.le_zero.mp (htool0 ▸ h.agent_le)
    refine ⟨?_, ?_, ?_, ?_, ?_, ?_, ?_, ?_, ?_, ?_⟩
    · show s.loads + 1 ≤ 1
      rw [hload0]
    · show s.toolInits ≤ s.loads + 1
      exact Nat.le_succ_of_le h.tools_le
    · exact h.agent_le
    · intro j hj
      simp only [Function.update_apply] at hj
      by_cases hji : j = i
      · rw [hji]
        exact hlock
      · rw [if_neg hji] at hj
        exact absurd hj (hnomid j)
    · intro hf
      rw [hflag] at hf
      exact Bool.noConfusion hf
    · intro _ hnm
      exfalso
      apply hnm i
      show midPC (Function.update s.tasks i PC.loaded i)
      rw [Function.update_same]
      exact Or.inl rfl
    · intro j hj
      simp only [Function.update_apply] at hj
      by_cases hji : j = i
      · refine ⟨?_, htool0, hagent0, hflag⟩
        show s.loads + 1 = 1
        rw [hload0]
      · rw [if_neg hji] at hj
        exact absurd (Or.inl hj) (hnomid j)
    · intro j hj
      simp only [Function.update_apply] at hj
      by_cases hji : j = i
      · rw [if_pos hji] at hj
        exact PC.noConfusion hj
      · rw [if_neg hji] at hj
        exact absurd (Or.inr (Or.inl hj)) (hnomid j)
    · intro j hj
      simp only [Function.update_apply] at hj
      by_cases hji : j = i
      · rw [if_pos hji] at hj
        exact PC.noConfusion hj
      · rw [if_neg hji] at hj
        exact absurd (Or.inr (Or.inr hj)) (hnomid j)
    · intro j hj
      simp only [Function.update_apply] at hj
      by_cases hji : j = i
      · rw [if_pos hji] at hj
        rcases hj with hj | hj <;> exact PC.noConfusion hj
      · rw [if_neg hji] at hj
        exact h.serving_flag j hj
  | doTools i hloaded hlock =>
    have hc := h.loaded_counts i hloaded
    have hnomid' : ∀ j, j ≠ i → ¬ midPC (s.tasks j) := by
      intro j hji hj
      have hsome := h.mid_lock j hj
      rw [hlock] at hsome
      exact hji (Option.some.inj hsome).symm
    refine ⟨?_, ?_, ?_, ?_, ?_, ?_, ?_, ?_, ?_, ?_⟩
    · exact h.loads_le
    · show s.toolInits + 1 ≤ s.loads
      rw [hc.2.1, hc.1]
    · show s.agentInits ≤ s.toolInits + 1
      exact Nat.le_succ_of_le h.agent_le
    · intro j hj
      simp only [Function.update_apply] at hj
      by_cases hji : j = i
      · rw [hji]
        exact hlock
      · rw [if_neg hji] at hj
        exact absurd hj (hnomid' j hji)
    · intro hf
      rw [hc.2.2.2] at hf
      exact Bool.noConfusion hf
    · intro _ hnm
      exfalso
      apply hnm i
      show midPC (Function.update s.tasks i PC.toolsInited i)
      rw [Function.update_same]
      exact Or.inr (Or.inl rfl)
    · intro j hj
      simp only [Function.update_apply] at hj
      by_cases hji : j = i
      · rw [if_pos hji] at hj
        exact PC.noConfusion hj
      · rw [if_neg hji] at hj
        exact absurd (Or.inl hj) (hnomid' j hji)
    · intro j hj
      simp only [Function.update_apply] at hj
      by_cases hji : j = i
      · refine ⟨hc.1, ?_, hc.2.2.1, hc.2.2.2⟩
        show s.toolInits + 1 = 1
        rw [hc.2.1]
      · rw [if_neg hji] at hj
        exact absurd (Or.inr (Or.inl hj)) (hnomid' j hji)
    · intro j hj
      simp only [Function.update_apply] at hj
      by_cases hji : j = i
      · rw [if_pos hji] at hj
        exact PC.noConfusion hj
      · rw [if_neg hji] at hj
        exact absurd (Or.inr (Or.inr hj)) (hnomid' j hji)
    · intro j hj
      simp only [Function.update_apply] at hj
      by_cases hji : j = i
      · rw [if_pos hji] at hj
        rcases hj with hj | hj <;> exact PC.noConfusion hj
      · rw [if_neg hji] at hj
        exact h.serving_flag j hj
  | doAgent i htool hlock =>
    have hc := h.toolsInited_counts i htool
    have hnomid' : ∀ j, j ≠ i → ¬ midPC (s.tasks j) := by
      intro j hji hj
      have hsome := h.mid_lock j hj
      rw [hlock] at hsome
      exact hji (Option.some.inj hsome).symm
    refine ⟨?_, ?_, ?_, ?_, ?_, ?_, ?_, ?_, ?_, ?_⟩
    · exact h.loads_le
    · exact h.tools_le
    · show s.agentInits + 1 ≤ s.toolInits
      rw [hc.2.2.1, hc.2.1]
    · intro j hj
      simp only [Function.update_apply] at hj
      by_cases hji : j = i
      · rw [hji]
        exact hlock
      · rw [if_neg hji] at hj
        exact absurd hj (hnomid' j hji)
    · intro hf
      rw [hc.2.2.2] at hf
      exact Bool.noConfusion hf
    · intro _ hnm
      exfalso
      apply hnm i
      show midPC (Function.update s.tasks i PC.agentInited i)
      rw [Function.update_same]
      exact Or.inr (Or.inr rfl)
    · intro j hj
      simp only [Function.update_apply] at hj
      by_cases hji : j = i
      · rw [if_pos hji] at hj
        exact PC.noConfusion hj
      · rw [if_neg hji] at hj
        exact absurd (Or.inl hj) (hnomid' j hji)
    · intro j hj
      simp only [Function.update_apply] at hj
      by_cases hji : j = i
      · rw [if_pos hji] at hj
        exact PC.noConfusion hj
      · rw [if_neg hji] at hj
        exact absurd (Or.inr (Or.inl hj)) (hnomid' j hji)
    · intro j hj
      simp only [Function.update_apply] at hj
      by_cases hji : j = i
      · refine ⟨hc.1, hc.2.1, ?_, hc.2.2.2⟩
        show s.agentInits + 1 = 1
        rw [hc.2.2.1]
      · rw [if_neg hji] at hj
        exact absurd (Or.inr (Or.inr hj)) (hnomid' j hji)
    · intro j hj
      simp only [Function.update_apply] at hj
      by_cases hji : j = i
      · rw [if_pos hji] at hj
        rcases hj with hj | hj <;> exact PC.noConfusion hj
      · rw [if_neg hji] at hj
        exact h.serving_flag j hj
  | finishInit i hagent hlock =>
    have hc := h.agentInited_counts i hagent
    have hnomid' : ∀ j, j ≠ i → ¬ midPC (s.tasks j) := by
      intro j hji hj
      have hsome := h.mid_lock j hj
      rw [hlock] at hsome
      exact hji (Option.some.inj hsome).symm
    refine ⟨h.loads_le, h.tools_le, h.agent_le, ?_, ?_, ?_, ?_, ?_, ?_, ?_⟩
    · intro j hj
      simp only [Function.update_apply] at hj
      by_cases hji : j = i
      · rw [if_pos hji] at hj
        exact absurd hj (by decide)
      · rw [if_neg hji] at hj
        exact absurd hj (hnomid' j hji)
    · intro _
      exact ⟨hc.1, hc.2.1, hc.2.2.1⟩
    · intro hf
      exact Bool.noConfusion hf
    · intro j hj
      simp only [Function.update_apply] at hj
      by_cases hji : j = i
      · rw [if_pos hji] at hj
        exact PC.noConfusion hj
      · rw [if_neg hji] at hj
        exact absurd (Or.inl hj) (hnomid' j hji)
    · intro j hj
      simp only [Function.update_apply] at hj
      by_cases hji : j = i
      · rw [if_pos hji] at hj
        exact PC.noConfusion hj
      · rw [if_neg hji] at hj
        exact absurd (Or.inr (Or.inl hj)) (hnomid' j hji)
    · intro j hj
      simp only [Function.update_apply] at hj
      by_cases hji : j = i
      · rw [if_pos hji] at hj
        exact PC.noConfusion hj
      · rw [if_neg hji] at hj
        exact absurd (Or.inr (Or.inr hj)) (hnomid' j hji)
    · intro j hj
      rfl
  | serve i hserv =>
    refine ⟨h.loads_le, h.tools_le, h.agent_le, ?_, h.flag_done, ?_, ?_, ?_, ?_, ?_⟩
    · intro j hj
      simp only [Function.update_apply] at hj
      by_cases hji : j = i
      · rw [if_pos hji] at hj
        exact absurd hj (by decide)
      · rw [if_neg hji] at hj
        exact h.mid_lock j hj
    · intro hf hnm
      refine h.no_mid_no_load hf ?_
      intro j hj
      by_cases hji : j = i
      · rw [hji, hserv] at hj
        exact absurd hj (by decide)
      · apply hnm j
        simp only [Function.update_apply]
        rw [if_neg hji]
        exact hj
    · intro j hj
      simp only [Function.update_apply] at hj
      by_cases hji : j = i
      · rw [if_pos hji] at hj
        exact PC.noConfusion hj
      · rw [if_neg hji] at hj
        exact h.loaded_counts j hj
    · intro j hj
      simp only [Function.update_apply] at hj
      by_cases hji : j = i
      · rw [if_pos hji] at hj
        exact PC.noConfusion hj
      · rw [if_neg hji] at hj
        exact h.toolsInited_counts j hj
    · intro j hj
      simp only [Function.update_apply] at hj
      by_cases hji : j = i
      · rw [if_pos hji] at hj
        exact PC.noConfusion hj
      · rw [if_neg hji] at hj
        exact h.agentInited_counts j hj
    · intro j hj
      by_cases hji : j = i
      · exact h.serving_flag i (Or.inl hserv)
      · simp only [Function.update_apply] at hj
        rw [if_neg hji] at hj
        exact h.serving_flag j hj

theorem inv_reachable (s : SysState) (h : Reachable s) : Inv s := by
  induction h with
  | refl => exact inv_init
  | tail hab hbc ih => exact inv_step _ _ ih hbc

end LazyInit

/-- C9: in every reachable interleaving of concurrent handler
invocations, each of the three first-time setup steps (configuration
load, tool initialization, agent construction) executes at most once and
in that order, and a task only reaches serving once the initialized flag
is set — no caller observes a half-initialized agent. -/
theorem c9_lazy_init_at_most_once (s : LazyInit.SysState) (h : LazyInit.Reachable s) :
    s.loads ≤ 1 ∧ s.toolInits ≤ s.loads ∧ s.agentInits ≤ s.toolInits ∧
    ∀ i, (s.tasks i = LazyInit.PC.serving ∨ s.tasks i = LazyInit.PC.finished) →
      s.initializedFlag = true := by
  have hi := LazyInit.inv_reachable s h
  exact ⟨hi.loads_le, hi.tools_le, hi.agent_le, hi.serving_flag⟩

/-- C9 witness: the initial state is reachable. -/
theorem c9_lazy_init_at_most_once_witness :
    LazyInit.initState.loads ≤ 1 ∧
    LazyInit.initState.toolInits ≤ LazyInit.initState.loads ∧
    LazyInit.initState.agentInits ≤ LazyInit.initState.toolInits ∧
    ∀ i, (LazyInit.initState.tasks i = LazyInit.PC.serving ∨
      LazyInit.initState.tasks i = LazyInit.PC.finished) →
      LazyInit.initState.initializedFlag = true :=
  c9_lazy_init_at_most_once LazyInit.initState Relation.ReflTransGen.refl

end WebExtractionAgent
